import Mathlib

/-!
Shallow embedding of `src/pipelines/inference/backend.py`.

The file models the two storage substrates of the backend module:

* the `Local` backend, which persists inference records in a SQLite table
  (`Local.load`, `Local.save`, `Local.label`, `Local.invoke`), and
* the `Sagemaker` backend, which reconstructs a labeled table from capture
  objects and ground-truth objects stored under two S3 prefixes
  (`Sagemaker.load`, `Sagemaker.label`, `Sagemaker.invoke`, and the
  reconciliation join `Sagemaker.loadCollectedData`).

External effects are made explicit: the SQLite database is a `LocalState`
value (file existence, the `data` table, and a fresh-uuid counter), the
random module is a stream of draws `Nat → ℚ × Fin 3`, HTTP transport is a
`TransportResult` oracle, and storage failures are injected through
explicit failure parameters.  Python exceptions that escape to the caller
are modelled with `Except`/`Option PyErr` results.
-/

set_option maxHeartbeats 1000000

namespace MLSchool

/-- A Python exception escaping an operation, or caught inside one. -/
inductive PyErr where
  | keyError
  | valueError
  | transport
  deriving DecidableEq, Repr

/-- The closed label domain used by `get_fake_label`
(`random.choice(["Adelie", "Chinstrap", "Gentoo"])`). -/
def pickAlt : Fin 3 → String
  | 0 => "Adelie"
  | 1 => "Chinstrap"
  | 2 => "Gentoo"

/-- Model of `Backend.get_fake_label`: return the prediction when the uniform draw is
below `ground_truth_quality`, otherwise a uniformly chosen class.  The draw
is a pair of the `random.random()` sample and the `random.choice` index. -/
def get_fake_label (prediction : Option String) (ground_truth_quality : ℚ)
    (draw : ℚ × Fin 3) : Option String :=
  if draw.1 < ground_truth_quality then prediction else some (pickAlt draw.2)

/-- The feature columns of one penguin row (schema of the `data` table
minus the bookkeeping columns). -/
structure Features where
  island : String
  sex : String
  culmen_length_mm : Int
  culmen_depth_mm : Int
  flipper_length_mm : Int
  body_mass_g : Int
  deriving DecidableEq, Repr

/-- One row of the local SQLite `data` table. -/
structure LocalRow where
  features : Features
  date : Nat
  prediction : Option String
  confidence : Option Int
  ground_truth : Option String
  uuid : Nat
  deriving DecidableEq, Repr

/-- The state of the local SQLite database: whether the database file
exists, the contents of the `data` table (`none` when the table was never
created), and the supply of fresh row identifiers. -/
structure LocalState where
  fileExists : Bool
  table : Option (List LocalRow)
  nextUuid : Nat
  deriving DecidableEq, Repr

/-- One item of the `model_output` list passed to `save`: a Python dict
where `none` models a missing `"prediction"`/`"confidence"` key. -/
structure OutputItem where
  prediction : Option String
  confidence : Option Int
  deriving DecidableEq, Repr

/-- A row returned by `Local.load` (the SELECT projects the feature
columns, `prediction` and `ground_truth`; `confidence` is not selected). -/
structure LoadedRow where
  features : Features
  prediction : Option String
  ground_truth : Option String
  deriving DecidableEq, Repr

/-- Errors that `Local.load` can raise to its caller. -/
inductive LoadErr where
  | noSuchTable
  deriving DecidableEq, Repr

/-- Insert a row into a list sorted by `date` descending, after any row
with an equal or larger date (the deterministic model of the SQL
`ORDER BY date DESC`). -/
def insertDesc (r : LocalRow) : List LocalRow → List LocalRow
  | [] => [r]
  | x :: xs => if x.date < r.date then r :: x :: xs else x :: insertDesc r xs

/-- Sort rows by `date` descending, stably. -/
def sortDesc (l : List LocalRow) : List LocalRow :=
  l.foldl (fun acc x => insertDesc x acc) []

/-- Projection performed by the SELECT of `Local.load`. -/
def projRow (r : LocalRow) : LoadedRow :=
  ⟨r.features, r.prediction, r.ground_truth⟩

namespace Local

/-- Model of `Local.load`: return `none` when the database file does not exist;
raise when the file exists but the `data` table was never created (pandas
`read_sql_query` fails); otherwise return up to `limit` rows ordered by
capture date descending, projected to the selected columns. -/
def load (st : LocalState) (limit : Nat) : Except LoadErr (Option (List LoadedRow)) :=
  if st.fileExists = false then .ok none
  else
    match st.table with
    | none => .error .noSuchTable
    | some rows => .ok (some (((sortDesc rows).take limit).map projRow))

/-- Append freshly built rows to the `data` table.  `sqliteFail` injects a
`sqlite3.Error` in `to_sql`, which `save` catches and swallows: the table
is left unchanged and no error escapes. -/
def commitRows (stc : LocalState) (newRows : List LocalRow) (sqliteFail : Bool) :
    LocalState × Option PyErr :=
  if sqliteFail then ({ stc with nextUuid := stc.nextUuid + newRows.length }, none)
  else
    ({ stc with
        table := some (stc.table.getD [] ++ newRows),
        nextUuid := stc.nextUuid + newRows.length }, none)

/-- The rows `save` builds when the model output is empty or absent:
`prediction`/`confidence` stay null (store-only mode). -/
def storeOnlyRows (st : LocalState) (now : Nat) (model_input : List Features) :
    List LocalRow :=
  model_input.enum.map fun kf =>
    { features := kf.2, date := now, prediction := none, confidence := none,
      ground_truth := none, uuid := st.nextUuid + kf.1 }

/-- The rows `save` builds when the model output is present: the per-item
prediction and confidence are copied next to the input item. -/
def scoredRows (st : LocalState) (now : Nat) (model_input : List Features)
    (out : List OutputItem) : List LocalRow :=
  (model_input.zip out).enum.map fun ke =>
    { features := ke.2.1, date := now, prediction := ke.2.2.prediction,
      confidence := ke.2.2.confidence, ground_truth := none,
      uuid := st.nextUuid + ke.1 }

/-- Model of `Local.save`: connect (which creates the database file), build one row
per input item stamped with the capture time, `ground_truth = None` and,
when the output list is non-empty, the per-item prediction and confidence.
Missing dict keys raise `KeyError` and a length mismatch between the
output list and the input frame raises `ValueError`; both escape to the
caller because only `sqlite3.Error` is caught. -/
def save (st : LocalState) (now : Nat) (model_input : List Features)
    (model_output : Option (List OutputItem)) (sqliteFail : Bool) :
    LocalState × Option PyErr :=
  if model_output.getD [] = [] then
    commitRows { st with fileExists := true } (storeOnlyRows st now model_input)
      sqliteFail
  else if (model_output.getD []).any (fun i => i.prediction = none) then
    ({ st with fileExists := true }, some .keyError)
  else if (model_output.getD []).length ≠ model_input.length then
    ({ st with fileExists := true }, some .valueError)
  else if (model_output.getD []).any (fun i => i.confidence = none) then
    ({ st with fileExists := true }, some .keyError)
  else
    commitRows { st with fileExists := true }
      (scoredRows st now model_input (model_output.getD [])) sqliteFail

/-- One `UPDATE data SET ground_truth = ? WHERE uuid = ?` statement. -/
def updateByUuid (rows : List LocalRow) (u : Nat) (lbl : Option String) :
    List LocalRow :=
  rows.map fun r => if r.uuid = u then { r with ground_truth := lbl } else r

/-- The loop of `Local.label`: one update per unlabeled row, consuming one
random draw per iteration. -/
def runUpdates (rows df : List LocalRow) (q : ℚ) (rng : Nat → ℚ × Fin 3) :
    List LocalRow :=
  df.enum.foldl
    (fun acc kt =>
      updateByUuid acc kt.2.uuid (get_fake_label kt.2.prediction q (rng kt.1)))
    rows

/-- Whether the injected failure point `fail` aborts a `label` run before
its commit: `some k` with `k` at most the number of loop statements raises
during the loop or at the commit itself (`k` = batch size); `none` is the
failure-free run. -/
def failsBefore (fail : Option Nat) (n : Nat) : Bool :=
  match fail with
  | some k => decide (k ≤ n)
  | none => false

/-- Model of `Local.label`: return 0 when the database file does not exist; every
exception inside the body (including a missing `data` table) is caught and
turned into 0 with no change, because the connection is closed without a
commit and SQLite rolls the transaction back.  `fail` injects an exception
before the commit (see `failsBefore`); the normal run updates every
unlabeled row and commits. -/
def label (st : LocalState) (q : ℚ) (rng : Nat → ℚ × Fin 3) (fail : Option Nat) :
    Nat × LocalState :=
  if st.fileExists = false then (0, st)
  else
    match st.table with
    | none => (0, st)
    | some rows =>
      let df := rows.filter fun r => r.ground_truth = none
      if df = [] then (0, st)
      else if failsBefore fail df.length then (0, st)
      else (df.length, { st with table := some (runUpdates rows df q rng) })

/-- The result of an HTTP round trip. -/
inductive TransportResult (α : Type) where
  | ok (a : α)
  | err
  deriving DecidableEq, Repr

/-- The request `Local.invoke` hands to `requests.post`: target URL, JSON
body, and the `timeout=5` keyword. -/
structure HttpRequest where
  url : String
  body : String
  timeoutSeconds : Option Nat
  deriving DecidableEq, Repr

/-- Build the request sent by `Local.invoke`. -/
def invokeRequest (target payload : String) : HttpRequest :=
  { url := target, body := payload, timeoutSeconds := some 5 }

/-- Model of `Local.invoke`: post the payload; any transport error (including a
timeout) is caught and converted to `none`. -/
def invoke (http : HttpRequest → TransportResult String) (target payload : String) :
    Option String :=
  match http (invokeRequest target payload) with
  | .ok r => some r
  | .err => none

end Local

/-- One row of the table built by `Sagemaker._load_collected_data_files`
from the capture objects: the flattened input item, the parallel output
item, and the stamped event metadata (the `species` column it also adds is
identically `None` and is represented by the join result). -/
structure CapturedRow where
  features : Features
  prediction : Option String
  confidence : Option Int
  date : Nat
  event_id : String
  deriving DecidableEq, Repr

/-- One line of a ground-truth object (`groundTruthData.data` list plus
the `eventMetadata.eventId`), as loaded by
`Sagemaker._load_ground_truth_files`: one batch per line, holding the
ordered label list of one event.  A `none` entry models a JSON `null`
label. -/
structure GTBatch where
  event_id : String
  labels : List (Option String)
  deriving DecidableEq, Repr

/-- One row of the exploded ground-truth table. -/
structure GTRow where
  event_id : String
  species : Option String
  deriving DecidableEq, Repr

/-- One row of the joined table produced by
`Sagemaker._load_collected_data`. -/
structure MergedRow where
  row : CapturedRow
  species : Option String
  deriving DecidableEq, Repr

/-- One row returned by `Sagemaker.load` after renaming `species` to
`ground_truth` and dropping `date`, `event_id` and `confidence`. -/
structure PublicRow where
  features : Features
  prediction : Option String
  ground_truth : Option String
  deriving DecidableEq, Repr

/-- Model of `DataFrame.explode("species")` applied to one batch row: one output
row per label, and a single row with a null label when the list is
empty (pandas semantics). -/
def explodeBatch (b : GTBatch) : List GTRow :=
  match b.labels with
  | [] => [⟨b.event_id, none⟩]
  | ls => ls.map fun l => ⟨b.event_id, l⟩

/-- Explode every batch of the ground-truth table, preserving order. -/
def explodeBatches (bs : List GTBatch) : List GTRow :=
  bs.flatMap explodeBatch

/-- Model of `groupby(key).cumcount()` with running state: pair each element with
the number of earlier elements sharing its key. -/
def cumcountFrom (key : α → String) (seen : String → Nat) : List α → List (α × Nat)
  | [] => []
  | a :: rest =>
    (a, seen (key a)) ::
      cumcountFrom key (fun s => if s = key a then seen s + 1 else seen s) rest

/-- Model of `groupby(key).cumcount()`: the 0-based running counter within each key
group, in row order. -/
def cumcount (key : α → String) (l : List α) : List (α × Nat) :=
  cumcountFrom key (fun _ => 0) l

/-- Whether an indexed ground-truth row matches an indexed captured row on
the synthesized `(event_id, index)` key. -/
def keyMatch (ci : CapturedRow × Nat) (gj : GTRow × Nat) : Prop :=
  gj.1.event_id = ci.1.event_id ∧ gj.2 = ci.2

instance (ci : CapturedRow × Nat) (gj : GTRow × Nat) : Decidable (keyMatch ci gj) :=
  inferInstanceAs (Decidable (_ ∧ _))

/-- Model of the left merge on `(event_id, index)`: for each
left row in order, one output row per matching right row (in right order),
or a single output row with a null `species` when no right row matches. -/
def mergeLeft (dataIdx : List (CapturedRow × Nat)) (gtIdx : List (GTRow × Nat)) :
    List MergedRow :=
  dataIdx.flatMap fun ci =>
    match gtIdx.filter (fun gj => decide (keyMatch ci gj)) with
    | [] => [⟨ci.1, none⟩]
    | m :: ms => (m :: ms).map fun gj => ⟨ci.1, gj.1.species⟩

namespace Sagemaker

/-- Model of the data-loading step of `Sagemaker`: return an empty table when no
capture rows exist; when ground-truth rows exist, index both sides with
the per-event running counter and left-join on `(event_id, index)`;
otherwise return the captured rows with a null `species` column. -/
def loadCollectedData (data : List CapturedRow) (groundTruth : List GTBatch) :
    List MergedRow :=
  if data.length = 0 then []
  else if 0 < groundTruth.length then
    mergeLeft (cumcount (fun c => c.event_id) data)
      (cumcount (fun g => g.event_id) (explodeBatches groundTruth))
  else data.map fun c => ⟨c, none⟩

/-- Rename `species` to `ground_truth` and drop `date`, `event_id` and
`confidence`. -/
def toPublic (m : MergedRow) : PublicRow :=
  ⟨m.row.features, m.row.prediction, m.species⟩

/-- Model of `Sagemaker.load`: run the reconciliation join, keep the rows with a
ground-truth label, rename and drop the bookkeeping columns, and truncate
to `limit` rows. -/
def load (limit : Nat) (data : List CapturedRow) (groundTruth : List GTBatch) :
    List PublicRow :=
  let d := loadCollectedData data groundTruth
  if d = [] then []
  else ((d.filter fun m => m.species ≠ none).map toPublic).take limit

/-- Insert a string into an ascending sorted list. -/
def insertStr (s : String) : List String → List String
  | [] => [s]
  | x :: xs => if s < x then s :: x :: xs else x :: insertStr s xs

/-- Sort strings ascending (the key order of `DataFrame.groupby`). -/
def sortStr (l : List String) : List String :=
  l.foldl (fun acc x => insertStr x acc) []

/-- The grouping loop of `Sagemaker.label`: one ground-truth record per
distinct `event_id` (in the sorted order produced by `groupby`), holding
one fake label per row of the group, consuming one random draw per row. -/
def labelRecords (q : ℚ) (rng : Nat → ℚ × Fin 3) (unl : List MergedRow) :
    List GTBatch :=
  let events := sortStr ((unl.map fun m => m.row.event_id).dedup)
  (events.foldl
      (fun (acc : List GTBatch × Nat) e =>
        let grp := unl.filter fun m => m.row.event_id = e
        let lbls := grp.enum.map fun km =>
          get_fake_label km.2.row.prediction q (rng (acc.2 + km.1))
        (acc.1 ++ [⟨e, lbls⟩], acc.2 + grp.length))
      ([], 0)).1

/-- Model of `Sagemaker.label`: load the captured rows that the join left without
ground truth; when none exist return 0 and upload nothing; otherwise
upload one new ground-truth object containing one record per event and
return the number of unlabeled rows. -/
def label (q : ℚ) (rng : Nat → ℚ × Fin 3) (data : List CapturedRow)
    (groundTruth : List GTBatch) : Nat × Option (List GTBatch) :=
  let d := loadCollectedData data groundTruth
  let unl := if d = [] then d else d.filter fun m => m.species = none
  if unl = [] then (0, none)
  else (unl.length, some (labelRecords q rng unl))

/-- Model of `Sagemaker.invoke`: call `deployment_client.predict` and project the
response to the prediction/confidence pairs.  There is no exception
handling: a transport failure raises to the caller, and so does a
response item missing either key. -/
def invoke (predictResult : Local.TransportResult (List OutputItem)) :
    Except PyErr (List OutputItem) :=
  match predictResult with
  | .err => .error .transport
  | .ok items =>
    if items.any (fun i => i.prediction = none ∨ i.confidence = none) then
      .error .keyError
    else .ok items

end Sagemaker

/-! ### Lemmas about `cumcount` -/

theorem cumcountFrom_map_fst (key : α → String) (seen : String → Nat) (l : List α) :
    (cumcountFrom key seen l).map Prod.fst = l := by
  induction l generalizing seen with
  | nil => rfl
  | cons a rest ih => simp [cumcountFrom, ih]

theorem fst_mem_of_mem_cumcountFrom {key : α → String} {seen : String → Nat}
    {p : α × Nat} {l : List α} (h : p ∈ cumcountFrom key seen l) : p.1 ∈ l := by
  have : p.1 ∈ (cumcountFrom key seen l).map Prod.fst := List.mem_map_of_mem _ h
  rwa [cumcountFrom_map_fst] at this

theorem exists_mem_cumcountFrom {key : α → String} {a : α} {l : List α}
    (h : a ∈ l) (seen : String → Nat) : ∃ n, (a, n) ∈ cumcountFrom key seen l := by
  induction l generalizing seen with
  | nil => cases h
  | cons b rest ih =>
    rcases List.mem_cons.mp h with rfl | h
    · exact ⟨seen (key a), List.mem_cons_self _ _⟩
    · obtain ⟨n, hn⟩ := ih h (fun s => if s = key b then seen s + 1 else seen s)
      exact ⟨n, List.mem_cons_of_mem _ hn⟩

theorem fst_mem_of_mem_cumcount {key : α → String} {p : α × Nat} {l : List α}
    (h : p ∈ cumcount key l) : p.1 ∈ l :=
  fst_mem_of_mem_cumcountFrom h

theorem exists_mem_cumcount (key : α → String) {a : α} {l : List α} (h : a ∈ l) :
    ∃ n, (a, n) ∈ cumcount key l :=
  exists_mem_cumcountFrom h _

/-! ### The reconciliation join (C1) -/

/-- Every indexed captured row contributes at least one merged row. -/
theorem mergeLeft_covers (dataIdx : List (CapturedRow × Nat))
    (gtIdx : List (GTRow × Nat)) (ci : CapturedRow × Nat) (hci : ci ∈ dataIdx) :
    ∃ m ∈ mergeLeft dataIdx gtIdx, m.row = ci.1 := by
  rcases hfil : gtIdx.filter (fun gj => decide (keyMatch ci gj)) with _ | ⟨g, gs⟩
  · refine ⟨⟨ci.1, none⟩, ?_, rfl⟩
    rw [mergeLeft, List.mem_flatMap]
    exact ⟨ci, hci, by rw [hfil]; exact List.mem_singleton_self _⟩
  · refine ⟨⟨ci.1, g.1.species⟩, ?_, rfl⟩
    rw [mergeLeft, List.mem_flatMap]
    refine ⟨ci, hci, ?_⟩
    rw [hfil]
    exact List.mem_map_of_mem _ (List.mem_cons_self _ _)

/-- Every merged row comes from an indexed captured row, with a null
`species` exactly when no indexed ground-truth row matches its key, and
otherwise the `species` of some matching ground-truth row. -/
theorem mergeLeft_sound (dataIdx : List (CapturedRow × Nat))
    (gtIdx : List (GTRow × Nat)) (m : MergedRow)
    (hm : m ∈ mergeLeft dataIdx gtIdx) :
    ∃ ci ∈ dataIdx, m.row = ci.1 ∧
      ((m.species = none ∧ ∀ gj ∈ gtIdx, ¬ keyMatch ci gj) ∨
       (∃ gj ∈ gtIdx, keyMatch ci gj ∧ m.species = gj.1.species)) := by
  rw [mergeLeft, List.mem_flatMap] at hm
  obtain ⟨ci, hci, hin⟩ := hm
  refine ⟨ci, hci, ?_⟩
  rcases hfil : gtIdx.filter (fun gj => decide (keyMatch ci gj)) with _ | ⟨g, gs⟩
  · rw [hfil] at hin
    rcases List.mem_singleton.mp hin with rfl
    refine ⟨rfl, Or.inl ⟨rfl, ?_⟩⟩
    intro gj hgj hmatch
    have : gj ∈ gtIdx.filter (fun gj => decide (keyMatch ci gj)) :=
      List.mem_filter.mpr ⟨hgj, decide_eq_true hmatch⟩
    rw [hfil] at this
    cases this
  · rw [hfil] at hin
    obtain ⟨gj, hgj, rfl⟩ := List.mem_map.mp hin
    have hgj' : gj ∈ gtIdx ∧ keyMatch ci gj := by
      have := List.mem_filter.mp (hfil ▸ hgj)
      exact ⟨this.1, of_decide_eq_true this.2⟩
    exact ⟨rfl, Or.inr ⟨gj, hgj'.1, hgj'.2, rfl⟩⟩

/-- C1: on the object-storage substrate, `_load_collected_data` performs a
left outer join on the synthesized `(event_id, item_index)` key: every
captured row appears in the result; a captured row's ground truth is set
exactly when an indexed ground-truth row with the same key exists (and is
then the species of a matching row) and is null otherwise; and every
output row stems from a captured row, so no unmatched ground-truth row
appears. -/
theorem C1_reconciliation_join (data : List CapturedRow) (batches : List GTBatch)
    (hgt : ∀ g ∈ explodeBatches batches, g.species ≠ none) :
    (∀ c ∈ data, ∃ m ∈ Sagemaker.loadCollectedData data batches, m.row = c) ∧
    (∀ m ∈ Sagemaker.loadCollectedData data batches,
      ∃ ci ∈ cumcount (fun c : CapturedRow => c.event_id) data,
        m.row = ci.1 ∧
        (m.species ≠ none ↔
          ∃ gj ∈ cumcount (fun g : GTRow => g.event_id) (explodeBatches batches),
            keyMatch ci gj) ∧
        (m.species ≠ none →
          ∃ gj ∈ cumcount (fun g : GTRow => g.event_id) (explodeBatches batches),
            keyMatch ci gj ∧ m.species = gj.1.species)) := by
  by_cases hdata : data.length = 0
  · rw [List.length_eq_zero] at hdata
    subst hdata
    constructor
    · intro c hc; cases hc
    · intro m hm
      rw [Sagemaker.loadCollectedData] at hm
      simp at hm
  · by_cases hbat : 0 < batches.length
    · have hrw : Sagemaker.loadCollectedData data batches =
          mergeLeft (cumcount (fun c : CapturedRow => c.event_id) data)
            (cumcount (fun g : GTRow => g.event_id) (explodeBatches batches)) := by
        rw [Sagemaker.loadCollectedData, if_neg hdata, if_pos hbat]
      rw [hrw]
      constructor
      · intro c hc
        obtain ⟨n, hn⟩ := exists_mem_cumcount (fun c : CapturedRow => c.event_id) hc
        exact mergeLeft_covers _ _ (c, n) hn
      · intro m hm
        obtain ⟨ci, hci, hrow, hcase⟩ := mergeLeft_sound _ _ m hm
        refine ⟨ci, hci, hrow, ?_, ?_⟩
        · constructor
          · intro hne
            rcases hcase with ⟨hnone, _⟩ | ⟨gj, hgj, hmatch, _⟩
            · exact absurd hnone hne
            · exact ⟨gj, hgj, hmatch⟩
          · intro ⟨gj, hgj, hmatch⟩
            rcases hcase with ⟨_, hno⟩ | ⟨gj', hgj', _, hsp⟩
            · exact absurd hmatch (hno gj hgj)
            · rw [hsp]
              exact hgt gj'.1 (fst_mem_of_mem_cumcount hgj')
        · intro hne
          rcases hcase with ⟨hnone, _⟩ | ⟨gj, hgj, hmatch, hsp⟩
          · exact absurd hnone hne
          · exact ⟨gj, hgj, hmatch, hsp⟩
    · have hbat0 : batches = [] := List.length_eq_zero.mp (Nat.eq_zero_of_not_pos hbat)
      subst hbat0
      have hrw : Sagemaker.loadCollectedData data [] =
          data.map fun c => ⟨c, none⟩ := by
        rw [Sagemaker.loadCollectedData, if_neg hdata]
        rfl
      rw [hrw]
      constructor
      · intro c hc
        exact ⟨⟨c, none⟩, List.mem_map_of_mem _ hc, rfl⟩
      · intro m hm
        obtain ⟨c, hc, rfl⟩ := List.mem_map.mp hm
        obtain ⟨n, hn⟩ := exists_mem_cumcount (fun c : CapturedRow => c.event_id) hc
        refine ⟨(c, n), hn, rfl, ?_, ?_⟩
        · simp [explodeBatches, cumcount, cumcountFrom]
        · intro hne; exact absurd rfl hne

/-- A sample capture table and ground-truth table for the witnesses. -/
def sampleFeatures : Features :=
  { island := "Torgersen", sex := "MALE", culmen_length_mm := 38,
    culmen_depth_mm := 21, flipper_length_mm := 191, body_mass_g := 3800 }

/-- A sample captured row for the witnesses. -/
def sampleCaptured : CapturedRow :=
  { features := sampleFeatures, prediction := some "Adelie",
    confidence := some 90, date := 7, event_id := "E1" }

/-- Witness for C1 at a concrete one-row capture table and a one-batch
ground-truth table. -/
theorem C1_reconciliation_join_witness :
    (∀ g ∈ explodeBatches [⟨"E1", [some "Gentoo"]⟩], g.species ≠ none) ∧
    ((∀ c ∈ [sampleCaptured],
        ∃ m ∈ Sagemaker.loadCollectedData [sampleCaptured] [⟨"E1", [some "Gentoo"]⟩],
          m.row = c) ∧
     (∀ m ∈ Sagemaker.loadCollectedData [sampleCaptured] [⟨"E1", [some "Gentoo"]⟩],
        ∃ ci ∈ cumcount (fun c : CapturedRow => c.event_id) [sampleCaptured],
          m.row = ci.1 ∧
          (m.species ≠ none ↔
            ∃ gj ∈ cumcount (fun g : GTRow => g.event_id)
                (explodeBatches [⟨"E1", [some "Gentoo"]⟩]), keyMatch ci gj) ∧
          (m.species ≠ none →
            ∃ gj ∈ cumcount (fun g : GTRow => g.event_id)
                (explodeBatches [⟨"E1", [some "Gentoo"]⟩]),
              keyMatch ci gj ∧ m.species = gj.1.species))) :=
  ⟨by decide, C1_reconciliation_join [sampleCaptured] [⟨"E1", [some "Gentoo"]⟩] (by decide)⟩

/-! ### `Sagemaker.load` (C9) -/

/-- C9: `Sagemaker.load` runs the reconciliation join, keeps exactly the
rows with non-null ground truth, renames the label column to the public
`ground_truth` field while dropping the timestamp, event-id and confidence
columns (`toPublic`), and truncates to the first `limit` rows of the
merged order. -/
theorem C9_sagemaker_load (limit : Nat) (data : List CapturedRow)
    (batches : List GTBatch) :
    Sagemaker.load limit data batches =
      (((Sagemaker.loadCollectedData data batches).filter
          fun m => m.species ≠ none).take limit).map Sagemaker.toPublic ∧
    (∀ r ∈ Sagemaker.load limit data batches, r.ground_truth ≠ none) ∧
    (Sagemaker.load limit data batches).length ≤ limit := by
  have hrw : Sagemaker.load limit data batches =
      (((Sagemaker.loadCollectedData data batches).filter
          fun m => m.species ≠ none).take limit).map Sagemaker.toPublic := by
    rw [Sagemaker.load]
    by_cases hd : Sagemaker.loadCollectedData data batches = []
    · simp [hd]
    · simp only [if_neg hd]
      rw [List.map_take]
  refine ⟨hrw, ?_, ?_⟩
  · intro r hr
    rw [hrw] at hr
    obtain ⟨m, hm, rfl⟩ := List.mem_map.mp hr
    have hm' := List.mem_filter.mp (List.mem_of_mem_take hm)
    have : m.species ≠ none := by simpa using hm'.2
    simpa [Sagemaker.toPublic] using this
  · rw [hrw, List.length_map]
    exact List.length_take_le _ _

/-! ### `Local.save` (C4, C10) -/

theorem storeOnlyRows_length (st : LocalState) (now : Nat) (inputs : List Features) :
    (Local.storeOnlyRows st now inputs).length = inputs.length := by
  simp [Local.storeOnlyRows]

theorem storeOnlyRows_map_features (st : LocalState) (now : Nat)
    (inputs : List Features) :
    (Local.storeOnlyRows st now inputs).map (fun r => r.features) = inputs := by
  rw [Local.storeOnlyRows, List.map_map]
  have : ((fun r : LocalRow => r.features) ∘ fun kf : Nat × Features =>
      ({ features := kf.2, date := now, prediction := none, confidence := none,
         ground_truth := none, uuid := st.nextUuid + kf.1 } : LocalRow)) =
      Prod.snd := rfl
  rw [this, List.enum_map_snd]

theorem scoredRows_length (st : LocalState) (now : Nat) (inputs : List Features)
    (out : List OutputItem) (hlen : out.length = inputs.length) :
    (Local.scoredRows st now inputs out).length = inputs.length := by
  simp [Local.scoredRows, List.length_zip, hlen]

theorem scoredRows_map_features (st : LocalState) (now : Nat)
    (inputs : List Features) (out : List OutputItem)
    (hlen : out.length = inputs.length) :
    (Local.scoredRows st now inputs out).map (fun r => r.features) = inputs := by
  rw [Local.scoredRows, List.map_map]
  have : ((fun r : LocalRow => r.features) ∘ fun ke : Nat × (Features × OutputItem) =>
      ({ features := ke.2.1, date := now, prediction := ke.2.2.prediction,
         confidence := ke.2.2.confidence, ground_truth := none,
         uuid := st.nextUuid + ke.1 } : LocalRow)) =
      (Prod.fst ∘ Prod.snd) := rfl
  rw [this, ← List.map_map, List.enum_map_snd, List.map_fst_zip]
  exact le_of_eq hlen.symm

/-- Specification of the success path of `Local.save` with no injected
storage failure: the file exists afterwards, the new rows are appended to
the table, and every new row carries the capture time, a null ground truth
and the prediction/confidence shape dictated by the model output. -/
theorem save_ok_spec (st : LocalState) (now : Nat) (inputs : List Features)
    (outputs : Option (List OutputItem))
    (hok : (Local.save st now inputs outputs false).2 = none) :
    ∃ newRows : List LocalRow,
      (Local.save st now inputs outputs false).1 =
        { fileExists := true, table := some (st.table.getD [] ++ newRows),
          nextUuid := st.nextUuid + newRows.length } ∧
      newRows.length = inputs.length ∧
      newRows.map (fun r => r.features) = inputs ∧
      ∀ r ∈ newRows, r.date = now ∧ r.ground_truth = none ∧
        (outputs.getD [] = [] → r.prediction = none ∧ r.confidence = none) ∧
        (outputs.getD [] ≠ [] → r.prediction ≠ none ∧ r.confidence ≠ none) ∧
        (r.prediction = none ↔ r.confidence = none) := by
  by_cases hout : outputs.getD [] = []
  · refine ⟨Local.storeOnlyRows st now inputs, ?_, storeOnlyRows_length st now inputs,
      storeOnlyRows_map_features st now inputs, ?_⟩
    · rw [Local.save, if_pos hout, Local.commitRows, if_neg (by simp)]
    · intro r hr
      obtain ⟨kf, _, rfl⟩ := List.mem_map.mp hr
      refine ⟨rfl, rfl, fun _ => ⟨rfl, rfl⟩, fun h => absurd hout h, by simp⟩
  · by_cases hpred : (outputs.getD []).any (fun i => i.prediction = none)
    · rw [Local.save, if_neg hout, if_pos hpred] at hok
      cases hok
    · by_cases hlen : (outputs.getD []).length ≠ inputs.length
      · rw [Local.save, if_neg hout, if_neg hpred, if_pos hlen] at hok
        cases hok
      · by_cases hconf : (outputs.getD []).any (fun i => i.confidence = none)
        · rw [Local.save, if_neg hout, if_neg hpred, if_neg hlen, if_pos hconf] at hok
          cases hok
        · push_neg at hlen
          refine ⟨Local.scoredRows st now inputs (outputs.getD []), ?_,
            scoredRows_length st now inputs _ hlen,
            scoredRows_map_features st now inputs _ hlen, ?_⟩
          · rw [Local.save, if_neg hout, if_neg hpred,
              if_neg (by rw [hlen]; exact fun h => h rfl), if_neg hconf,
              Local.commitRows, if_neg (by simp)]
          · intro r hr
            obtain ⟨ke, hke, rfl⟩ := List.mem_map.mp hr
            have hmem : ke.2 ∈ inputs.zip (outputs.getD []) := by
              have := List.mem_map_of_mem Prod.snd hke
              rwa [List.enum_map_snd] at this
            have houtmem : ke.2.2 ∈ outputs.getD [] := (List.of_mem_zip hmem).2
            have hp : ke.2.2.prediction ≠ none := by
              intro h
              exact hpred (List.any_eq_true.mpr ⟨ke.2.2, houtmem, by simp [h]⟩)
            have hc : ke.2.2.confidence ≠ none := by
              intro h
              exact hconf (List.any_eq_true.mpr ⟨ke.2.2, houtmem, by simp [h]⟩)
            exact ⟨rfl, rfl, fun h => absurd h hout, fun _ => ⟨hp, hc⟩,
              ⟨fun h => absurd h hp, fun h => absurd h hc⟩⟩

/-- C4: a successful `Local.save` (no storage failure, no shape error)
appends exactly one row per input item, stamps each row with the current
capture time, initializes the ground truth to null, leaves prediction and
confidence both null when the output list is empty or absent and both
present otherwise — so prediction and confidence are both null or both
present, never one without the other. -/
theorem C4_local_save_shape (st : LocalState) (now : Nat) (inputs : List Features)
    (outputs : Option (List OutputItem))
    (hok : (Local.save st now inputs outputs false).2 = none) :
    ∃ newRows : List LocalRow,
      (Local.save st now inputs outputs false).1.table =
        some (st.table.getD [] ++ newRows) ∧
      newRows.length = inputs.length ∧
      newRows.map (fun r => r.features) = inputs ∧
      ∀ r ∈ newRows, r.date = now ∧ r.ground_truth = none ∧
        (outputs.getD [] = [] → r.prediction = none ∧ r.confidence = none) ∧
        (outputs.getD [] ≠ [] → r.prediction ≠ none ∧ r.confidence ≠ none) ∧
        (r.prediction = none ↔ r.confidence = none) := by
  obtain ⟨newRows, hst, hlen, hfeat, hall⟩ := save_ok_spec st now inputs outputs hok
  exact ⟨newRows, by rw [hst], hlen, hfeat, hall⟩

/-- The empty local state used by the witnesses: no database file yet. -/
def emptyState : LocalState := { fileExists := false, table := none, nextUuid := 0 }

/-- Witness for C4 at a concrete save of one scored input item. -/
theorem C4_local_save_shape_witness :
    (Local.save emptyState 5 [sampleFeatures]
        (some [⟨some "Adelie", some 90⟩]) false).2 = none ∧
    (∃ newRows : List LocalRow,
      (Local.save emptyState 5 [sampleFeatures]
          (some [⟨some "Adelie", some 90⟩]) false).1.table =
        some (emptyState.table.getD [] ++ newRows) ∧
      newRows.length = [sampleFeatures].length ∧
      newRows.map (fun r => r.features) = [sampleFeatures] ∧
      ∀ r ∈ newRows, r.date = 5 ∧ r.ground_truth = none ∧
        ((some [(⟨some "Adelie", some 90⟩ : OutputItem)]).getD [] = [] →
          r.prediction = none ∧ r.confidence = none) ∧
        ((some [(⟨some "Adelie", some 90⟩ : OutputItem)]).getD [] ≠ [] →
          r.prediction ≠ none ∧ r.confidence ≠ none) ∧
        (r.prediction = none ↔ r.confidence = none)) :=
  ⟨by decide,
   C4_local_save_shape emptyState 5 [sampleFeatures]
     (some [⟨some "Adelie", some 90⟩]) (by decide)⟩

/-- C10: `Local.save` swallows only storage-layer failures.  A non-empty
output list with a missing `prediction` key raises a `KeyError`, and a
non-empty output list whose length differs from the input raises a
`ValueError`, both before anything is written, leaving the stored table
unchanged; whereas on inputs where `save` succeeds, an injected
`sqlite3.Error` is swallowed (no error reaches the caller) and the table
is also left unchanged. -/
theorem C10_local_save_errors :
    (∀ (st : LocalState) (now : Nat) (inputs : List Features)
        (outputs : Option (List OutputItem)),
      outputs.getD [] ≠ [] →
      (∃ i ∈ outputs.getD [], i.prediction = none) →
      Local.save st now inputs outputs false =
        ({ st with fileExists := true }, some PyErr.keyError)) ∧
    (∀ (st : LocalState) (now : Nat) (inputs : List Features)
        (outputs : Option (List OutputItem)),
      outputs.getD [] ≠ [] →
      (∀ i ∈ outputs.getD [], i.prediction ≠ none) →
      (outputs.getD []).length ≠ inputs.length →
      Local.save st now inputs outputs false =
        ({ st with fileExists := true }, some PyErr.valueError)) ∧
    (∀ (st : LocalState) (now : Nat) (inputs : List Features)
        (outputs : Option (List OutputItem)),
      (Local.save st now inputs outputs false).2 = none →
      (Local.save st now inputs outputs true).2 = none ∧
      (Local.save st now inputs outputs true).1.table = st.table) := by
  refine ⟨?_, ?_, ?_⟩
  · intro st now inputs outputs hout ⟨i, hi, hp⟩
    rw [Local.save, if_neg hout,
      if_pos (List.any_eq_true.mpr ⟨i, hi, by simp [hp]⟩)]
  · intro st now inputs outputs hout hpred hlen
    have hany : ¬ (outputs.getD []).any (fun i => i.prediction = none) := by
      intro h
      obtain ⟨i, hi, hp⟩ := List.any_eq_true.mp h
      exact hpred i hi (by simpa using hp)
    rw [Local.save, if_neg hout, if_neg hany, if_pos hlen]
  · intro st now inputs outputs hok
    by_cases hout : outputs.getD [] = []
    · rw [Local.save, if_pos hout, Local.commitRows, if_pos rfl]
      exact ⟨rfl, rfl⟩
    · by_cases hpred : (outputs.getD []).any (fun i => i.prediction = none)
      · rw [Local.save, if_neg hout, if_pos hpred] at hok
        cases hok
      · by_cases hlen : (outputs.getD []).length ≠ inputs.length
        · rw [Local.save, if_neg hout, if_neg hpred, if_pos hlen] at hok
          cases hok
        · by_cases hconf : (outputs.getD []).any (fun i => i.confidence = none)
          · rw [Local.save, if_neg hout, if_neg hpred, if_neg hlen, if_pos hconf] at hok
            cases hok
          · rw [Local.save, if_neg hout, if_neg hpred, if_neg hlen, if_neg hconf,
              Local.commitRows, if_pos rfl]
            exact ⟨rfl, rfl⟩

/-- Witness for C10: a missing `prediction` key raises `KeyError`, a
length mismatch raises `ValueError`, and an injected storage failure on a
well-formed save is swallowed with the table unchanged. -/
theorem C10_local_save_errors_witness :
    ((some [(⟨none, some 90⟩ : OutputItem)] : Option (List OutputItem)).getD [] ≠ [] ∧
     (∃ i ∈ (some [(⟨none, some 90⟩ : OutputItem)] :
        Option (List OutputItem)).getD [], i.prediction = none) ∧
     Local.save emptyState 5 [sampleFeatures] (some [⟨none, some 90⟩]) false =
       ({ emptyState with fileExists := true }, some PyErr.keyError)) ∧
    (Local.save emptyState 5 [sampleFeatures]
        (some [⟨some "Adelie", some 90⟩, ⟨some "Gentoo", some 80⟩]) false =
      ({ emptyState with fileExists := true }, some PyErr.valueError)) ∧
    ((Local.save emptyState 5 [sampleFeatures]
        (some [⟨some "Adelie", some 90⟩]) true).2 = none ∧
     (Local.save emptyState 5 [sampleFeatures]
        (some [⟨some "Adelie", some 90⟩]) true).1.table = emptyState.table) := by
  refine ⟨⟨by decide, by decide, ?_⟩, ?_, ?_⟩
  · exact C10_local_save_errors.1 emptyState 5 [sampleFeatures]
      (some [⟨none, some 90⟩]) (by decide) (by decide)
  · exact C10_local_save_errors.2.1 emptyState 5 [sampleFeatures]
      (some [⟨some "Adelie", some 90⟩, ⟨some "Gentoo", some 80⟩])
      (by decide) (by decide) (by decide)
  · exact C10_local_save_errors.2.2 emptyState 5 [sampleFeatures]
      (some [⟨some "Adelie", some 90⟩]) (by decide)

/-! ### Sorting by capture date and the local round trip (C5) -/

theorem mem_insertDesc {r x : LocalRow} {l : List LocalRow} :
    x ∈ insertDesc r l ↔ x = r ∨ x ∈ l := by
  induction l with
  | nil => simp [insertDesc]
  | cons b bs ih =>
    rw [insertDesc]
    by_cases h : b.date < r.date
    · simp [h]
    · simp only [if_neg h, List.mem_cons, ih]
      tauto

theorem length_insertDesc (r : LocalRow) (l : List LocalRow) :
    (insertDesc r l).length = l.length + 1 := by
  induction l with
  | nil => rfl
  | cons b bs ih =>
    rw [insertDesc]
    by_cases h : b.date < r.date
    · simp [h]
    · simp [h, ih]

theorem mem_foldl_insertDesc (l : List LocalRow) :
    ∀ (acc : List LocalRow) (x : LocalRow),
      x ∈ l.foldl (fun a b => insertDesc b a) acc ↔ x ∈ acc ∨ x ∈ l := by
  induction l with
  | nil => simp
  | cons b bs ih =>
    intro acc x
    rw [List.foldl_cons, ih, mem_insertDesc]
    simp only [List.mem_cons]
    tauto

theorem length_foldl_insertDesc (l : List LocalRow) :
    ∀ acc : List LocalRow,
      (l.foldl (fun a b => insertDesc b a) acc).length = acc.length + l.length := by
  induction l with
  | nil => simp
  | cons b bs ih =>
    intro acc
    rw [List.foldl_cons, ih, length_insertDesc, List.length_cons]
    omega

theorem mem_sortDesc {x : LocalRow} {l : List LocalRow} :
    x ∈ sortDesc l ↔ x ∈ l := by
  rw [sortDesc, mem_foldl_insertDesc]
  simp

theorem length_sortDesc (l : List LocalRow) : (sortDesc l).length = l.length := by
  rw [sortDesc, length_foldl_insertDesc]
  simp

theorem insertDesc_skip_batch (x : LocalRow) (p acc : List LocalRow)
    (hp : ∀ e ∈ p, ¬ e.date < x.date) (hacc : ∀ a ∈ acc, a.date < x.date) :
    insertDesc x (p ++ acc) = p ++ x :: acc := by
  induction p with
  | nil =>
    cases acc with
    | nil => rfl
    | cons a as =>
      rw [List.nil_append, insertDesc, if_pos (hacc a (List.mem_cons_self _ _))]
      rfl
  | cons e es ih =>
    rw [List.cons_append, insertDesc, if_neg (hp e (List.mem_cons_self _ _))]
    rw [ih (fun e' he' => hp e' (List.mem_cons_of_mem _ he'))]
    rfl

theorem foldl_insertDesc_batch (now : Nat) (new : List LocalRow) :
    ∀ p acc : List LocalRow, (∀ e ∈ p, e.date = now) → (∀ n ∈ new, n.date = now) →
      (∀ a ∈ acc, a.date < now) →
      new.foldl (fun l x => insertDesc x l) (p ++ acc) = p ++ new ++ acc := by
  induction new with
  | nil => intro p acc _ _ _; simp
  | cons n ns ih =>
    intro p acc hp hnew hacc
    have hn : n.date = now := hnew n (List.mem_cons_self _ _)
    rw [List.foldl_cons,
      insertDesc_skip_batch n p acc
        (fun e he => by rw [hp e he, hn]; exact lt_irrefl _)
        (fun a ha => by rw [hn]; exact hacc a ha)]
    have : p ++ n :: acc = (p ++ [n]) ++ acc := by simp
    rw [this, ih (p ++ [n]) acc
      (by intro e he
          rcases List.mem_append.mp he with he | he
          · exact hp e he
          · rw [List.mem_singleton.mp he]; exact hn)
      (fun m hm => hnew m (List.mem_cons_of_mem _ hm)) hacc]
    simp

/-- Appending a batch of strictly-newer rows and sorting by date descending
puts the batch first, in its own order, in front of the sorted old rows. -/
theorem sortDesc_append_batch (old new : List LocalRow) (now : Nat)
    (hold : ∀ o ∈ old, o.date < now) (hnew : ∀ n ∈ new, n.date = now) :
    sortDesc (old ++ new) = new ++ sortDesc old := by
  rw [sortDesc, List.foldl_append]
  have hfold := foldl_insertDesc_batch now new [] (sortDesc old) (by simp) hnew
    (fun a ha => hold a (mem_sortDesc.mp ha))
  rw [List.nil_append] at hfold
  rw [show (old.foldl (fun acc x => insertDesc x acc) []) = sortDesc old from rfl,
    hfold, List.nil_append]

/-- Evaluation of `Local.load` on an existing database with an existing table. -/
theorem load_some (rows : List LocalRow) (u limit : Nat) :
    Local.load { fileExists := true, table := some rows, nextUuid := u } limit =
      .ok (some (((sortDesc rows).take limit).map projRow)) := rfl

/-- C5: on the local substrate, a successful `save` followed by `load`
with a sufficiently large limit returns the saved rows first, their
feature values unchanged and most-recently-captured first, followed by the
previously stored rows in their sorted order — and every previously stored
row is still present in the table. -/
theorem C5_local_roundtrip (st : LocalState) (now limit : Nat)
    (inputs : List Features) (outputs : Option (List OutputItem))
    (oldRows : List LocalRow) (htab : st.table.getD [] = oldRows)
    (hok : (Local.save st now inputs outputs false).2 = none)
    (hdate : ∀ o ∈ oldRows, o.date < now)
    (hlimit : oldRows.length + inputs.length ≤ limit) :
    ∃ out : List LoadedRow,
      Local.load (Local.save st now inputs outputs false).1 limit = .ok (some out) ∧
      (out.take inputs.length).map (fun r => r.features) = inputs ∧
      out.drop inputs.length = (sortDesc oldRows).map projRow ∧
      ∀ o ∈ oldRows, o ∈ (Local.save st now inputs outputs false).1.table.getD [] := by
  obtain ⟨newRows, hst, hlen, hfeat, hall⟩ := save_ok_spec st now inputs outputs hok
  have hnew : ∀ n ∈ newRows, n.date = now := fun n hn => (hall n hn).1
  have hsorted : sortDesc (oldRows ++ newRows) = newRows ++ sortDesc oldRows :=
    sortDesc_append_batch oldRows newRows now hdate hnew
  have hlength : (newRows ++ sortDesc oldRows).length ≤ limit := by
    rw [List.length_append, length_sortDesc, hlen]
    omega
  refine ⟨(newRows ++ sortDesc oldRows).map projRow, ?_, ?_, ?_, ?_⟩
  · rw [hst, htab, load_some, hsorted, List.take_of_length_le hlength]
  · rw [← List.map_take, List.take_left' hlen, List.map_map]
    exact hfeat
  · rw [← List.map_drop, List.drop_left' hlen]
  · intro o ho
    rw [hst]
    simp only [htab, Option.getD_some]
    exact List.mem_append_left _ ho

/-- An already-stored row, captured at time 0, used by the C5 witness. -/
def oldRowW : LocalRow :=
  { features := sampleFeatures, date := 0, prediction := some "Gentoo",
    confidence := some 80, ground_truth := none, uuid := 0 }

/-- A one-row local store used by the C5 witness. -/
def stateW : LocalState :=
  { fileExists := true, table := some [oldRowW], nextUuid := 1 }

/-- Witness for C5: one old row captured at time 0, one new store-only row
saved at time 1, loaded with limit 10. -/
theorem C5_local_roundtrip_witness :
    (stateW.table.getD [] = [oldRowW]) ∧
    ((Local.save stateW 1 [sampleFeatures] none false).2 = none) ∧
    (∀ o ∈ [oldRowW], o.date < 1) ∧
    ([oldRowW].length + [sampleFeatures].length ≤ 10) ∧
    (∃ out : List LoadedRow,
      Local.load (Local.save stateW 1 [sampleFeatures] none false).1 10 =
        .ok (some out) ∧
      (out.take [sampleFeatures].length).map (fun r => r.features) =
        [sampleFeatures] ∧
      out.drop [sampleFeatures].length = (sortDesc [oldRowW]).map projRow ∧
      ∀ o ∈ [oldRowW],
        o ∈ (Local.save stateW 1 [sampleFeatures] none false).1.table.getD []) :=
  ⟨by decide, by decide, by decide, by decide,
   C5_local_roundtrip stateW 1 10 [sampleFeatures] none [oldRowW] (by decide)
     (by decide) (by decide) (by decide)⟩

/-! ### `Local.label` machinery (C2, C7, C8) -/

theorem uuid_inj {rows : List LocalRow}
    (hpw : rows.Pairwise fun a b => a.uuid ≠ b.uuid) :
    ∀ a ∈ rows, ∀ b ∈ rows, a.uuid = b.uuid → a = b := by
  induction rows with
  | nil => intro a ha; cases ha
  | cons x xs ih =>
    rcases List.pairwise_cons.mp hpw with ⟨hx, hxs⟩
    intro a ha b hb hab
    rcases List.mem_cons.mp ha with ha1 | ha2
    · rcases List.mem_cons.mp hb with hb1 | hb2
      · rw [ha1, hb1]
      · subst ha1
        exact absurd hab (hx b hb2)
    · rcases List.mem_cons.mp hb with hb1 | hb2
      · subst hb1
        exact absurd hab.symm (hx a ha2)
      · exact ih hxs a ha2 b hb2 hab

theorem snd_mem_enumFrom {p : Nat × α} :
    ∀ {n : Nat} {l : List α}, p ∈ l.enumFrom n → p.2 ∈ l := by
  intro n l
  induction l generalizing n with
  | nil => intro h; cases h
  | cons a as ih =>
    intro h
    rw [List.enumFrom_cons] at h
    rcases List.mem_cons.mp h with rfl | h
    · exact List.mem_cons_self _ _
    · exact List.mem_cons_of_mem _ (ih h)

theorem exists_mem_enumFrom {a : α} :
    ∀ {l : List α}, a ∈ l → ∀ n : Nat, ∃ k, (k, a) ∈ l.enumFrom n := by
  intro l
  induction l with
  | nil => intro h; cases h
  | cons b bs ih =>
    intro h n
    rcases List.mem_cons.mp h with rfl | h
    · exact ⟨n, by rw [List.enumFrom_cons]; exact List.mem_cons_self _ _⟩
    · obtain ⟨k, hk⟩ := ih h (n + 1)
      exact ⟨k, by rw [List.enumFrom_cons]; exact List.mem_cons_of_mem _ hk⟩

theorem pairwise_enumFrom {R : α → α → Prop} :
    ∀ {l : List α} (n : Nat), l.Pairwise R →
      (l.enumFrom n).Pairwise fun a b => R a.2 b.2 := by
  intro l
  induction l with
  | nil => intro n _; exact List.Pairwise.nil
  | cons a as ih =>
    intro n h
    rcases List.pairwise_cons.mp h with ⟨ha, has⟩
    rw [List.enumFrom_cons]
    exact List.pairwise_cons.mpr ⟨fun p hp => ha p.2 (snd_mem_enumFrom hp), ih _ has⟩

/-- One loop step of `Local.label` acting on a single row. -/
def stepUpd (lab : Nat × LocalRow → Option String) (kt : Nat × LocalRow)
    (x : LocalRow) : LocalRow :=
  if x.uuid = kt.2.uuid then { x with ground_truth := lab kt } else x

theorem foldl_updateByUuid_eq_map (lab : Nat × LocalRow → Option String)
    (todo : List (Nat × LocalRow)) :
    ∀ acc : List LocalRow,
      todo.foldl (fun a kt => Local.updateByUuid a kt.2.uuid (lab kt)) acc =
        acc.map fun r => todo.foldl (fun x kt => stepUpd lab kt x) r := by
  induction todo with
  | nil => intro acc; simp
  | cons kt rest ih =>
    intro acc
    rw [List.foldl_cons, ih]
    have hupd : Local.updateByUuid acc kt.2.uuid (lab kt) =
        acc.map (stepUpd lab kt) := rfl
    rw [hupd, List.map_map]
    rfl

theorem stepFold_no_match (lab : Nat × LocalRow → Option String) :
    ∀ (todo : List (Nat × LocalRow)) (y : LocalRow),
      (∀ kt ∈ todo, kt.2.uuid ≠ y.uuid) →
      todo.foldl (fun x kt => stepUpd lab kt x) y = y := by
  intro todo
  induction todo with
  | nil => intro y _; rfl
  | cons kt rest ih =>
    intro y h
    rw [List.foldl_cons]
    have hne : ¬ y.uuid = kt.2.uuid :=
      fun hy => h kt (List.mem_cons_self _ _) hy.symm
    have hstep : stepUpd lab kt y = y := by
      simp only [stepUpd, if_neg hne]
    rw [hstep]
    exact ih y fun kt' hkt' => h kt' (List.mem_cons_of_mem _ hkt')

theorem stepFold_find (lab : Nat × LocalRow → Option String) :
    ∀ (todo : List (Nat × LocalRow)) (x : LocalRow),
      (todo.Pairwise fun a b => a.2.uuid ≠ b.2.uuid) →
      todo.foldl (fun x kt => stepUpd lab kt x) x =
        match todo.find? (fun kt => decide (kt.2.uuid = x.uuid)) with
        | some kt => stepUpd lab kt x
        | none => x := by
  intro todo
  induction todo with
  | nil => intro x _; rfl
  | cons kt rest ih =>
    intro x hpw
    rcases List.pairwise_cons.mp hpw with ⟨hhead, htail⟩
    rw [List.foldl_cons]
    by_cases hx : kt.2.uuid = x.uuid
    · rw [List.find?_cons_of_pos _ (by simpa using hx)]
      show rest.foldl (fun x kt => stepUpd lab kt x) (stepUpd lab kt x) =
        stepUpd lab kt x
      have hstep : stepUpd lab kt x = { x with ground_truth := lab kt } := by
        simp only [stepUpd, if_pos hx.symm]
      rw [hstep]
      exact stepFold_no_match lab rest _ fun kt' hkt' hcontra =>
        hhead kt' hkt' (hx.trans hcontra.symm)
    · rw [List.find?_cons_of_neg _ (by simpa using hx)]
      have hstep : stepUpd lab kt x = x := by
        simp only [stepUpd, if_neg (fun h : x.uuid = kt.2.uuid => hx h.symm)]
      rw [hstep]
      exact ih x htail

/-- The effect of one `label` run on a single row, through the first entry
of the unlabeled batch whose uuid matches the row. -/
def labelStep (rows : List LocalRow) (q : ℚ) (rng : Nat → ℚ × Fin 3)
    (r : LocalRow) : LocalRow :=
  match ((rows.filter fun t => t.ground_truth = none).enum).find?
      (fun kt => decide (kt.2.uuid = r.uuid)) with
  | some kt => { r with ground_truth := get_fake_label kt.2.prediction q (rng kt.1) }
  | none => r

/-- With pairwise-distinct uuids the sequential update loop of `label`
equals a simultaneous per-row update. -/
theorem runUpdates_filter_eq (rows : List LocalRow) (q : ℚ)
    (rng : Nat → ℚ × Fin 3) (hpw : rows.Pairwise fun a b => a.uuid ≠ b.uuid) :
    Local.runUpdates rows (rows.filter fun r => r.ground_truth = none) q rng =
      rows.map (labelStep rows q rng) := by
  have hpwdf : (((rows.filter fun r => r.ground_truth = none).enum).Pairwise
      fun a b => a.2.uuid ≠ b.2.uuid) :=
    pairwise_enumFrom 0 (List.Pairwise.sublist (List.filter_sublist _) hpw)
  rw [Local.runUpdates,
    foldl_updateByUuid_eq_map fun kt => get_fake_label kt.2.prediction q (rng kt.1)]
  refine List.map_congr_left fun r hr => ?_
  rw [stepFold_find _ _ _ hpwdf, labelStep]
  rcases hfind : ((rows.filter fun t => t.ground_truth = none).enum).find?
      (fun kt => decide (kt.2.uuid = r.uuid)) with _ | kt
  · simp only [hfind]
  · simp only [hfind]
    have huuid : kt.2.uuid = r.uuid := by simpa using List.find?_some hfind
    simp only [stepUpd, if_pos huuid.symm]

theorem labelStep_of_labeled (rows : List LocalRow) (q : ℚ)
    (rng : Nat → ℚ × Fin 3) (hpw : rows.Pairwise fun a b => a.uuid ≠ b.uuid)
    (r : LocalRow) (hr : r ∈ rows) (h : r.ground_truth ≠ none) :
    labelStep rows q rng r = r := by
  rw [labelStep]
  have hfind : ((rows.filter fun t => t.ground_truth = none).enum).find?
      (fun kt => decide (kt.2.uuid = r.uuid)) = none := by
    rw [List.find?_eq_none]
    intro kt hkt hdec
    have huuid : kt.2.uuid = r.uuid := by simpa using hdec
    have hmem : kt.2 ∈ rows.filter fun t => t.ground_truth = none :=
      snd_mem_enumFrom hkt
    rcases List.mem_filter.mp hmem with ⟨hmem', hgt⟩
    have hktr : kt.2 = r := uuid_inj hpw kt.2 hmem' r hr huuid
    rw [hktr] at hgt
    exact h (by simpa using hgt)
  rw [hfind]

theorem labelStep_of_unlabeled (rows : List LocalRow) (q : ℚ)
    (rng : Nat → ℚ × Fin 3) (hpw : rows.Pairwise fun a b => a.uuid ≠ b.uuid)
    (r : LocalRow) (hr : r ∈ rows) (h : r.ground_truth = none) :
    ∃ k, labelStep rows q rng r =
      { r with ground_truth := get_fake_label r.prediction q (rng k) } := by
  have hdf : r ∈ rows.filter fun t => t.ground_truth = none :=
    List.mem_filter.mpr ⟨hr, by simpa using h⟩
  obtain ⟨k, hk⟩ := exists_mem_enumFrom hdf 0
  have hsome : ((((rows.filter fun t => t.ground_truth = none).enum).find?
      fun kt => decide (kt.2.uuid = r.uuid))).isSome := by
    rw [List.find?_isSome]
    exact ⟨(k, r), hk, by simp⟩
  obtain ⟨kt, hkt⟩ := Option.isSome_iff_exists.mp hsome
  have huuid : kt.2.uuid = r.uuid := by simpa using List.find?_some hkt
  have hmemdf : kt.2 ∈ rows.filter fun t => t.ground_truth = none :=
    snd_mem_enumFrom (List.mem_of_find?_eq_some hkt)
  have hktr : kt.2 = r :=
    uuid_inj hpw kt.2 (List.mem_of_mem_filter hmemdf) r hr huuid
  refine ⟨kt.1, ?_⟩
  rw [labelStep]
  simp only [hkt]
  rw [hktr]

/-- Unfolding of `Local.label` on an existing database and table. -/
theorem label_some (rows : List LocalRow) (u : Nat) (q : ℚ)
    (rng : Nat → ℚ × Fin 3) (fail : Option Nat) :
    Local.label ⟨true, some rows, u⟩ q rng fail =
      (if (rows.filter fun r => r.ground_truth = none) = [] then
        (0, ⟨true, some rows, u⟩)
      else if Local.failsBefore fail
          (rows.filter fun r => r.ground_truth = none).length then
        (0, ⟨true, some rows, u⟩)
      else ((rows.filter fun r => r.ground_truth = none).length,
        ⟨true, some (Local.runUpdates rows
          (rows.filter fun r => r.ground_truth = none) q rng), u⟩)) := rfl

theorem label_no_file (st : LocalState) (q : ℚ) (rng : Nat → ℚ × Fin 3)
    (fail : Option Nat) (h : st.fileExists = false) :
    Local.label st q rng fail = (0, st) := by
  rw [Local.label, if_pos h]

/-- C2: after `label` with accuracy 1.0 on the local substrate (so that
every uniform draw in [0,1) falls below the accuracy), every row that
previously had a null ground truth has its ground truth set to its stored
prediction, and every row that already had a ground truth is unchanged. -/
theorem C2_label_full_accuracy (st : LocalState) (rows : List LocalRow)
    (rng : Nat → ℚ × Fin 3) (hfe : st.fileExists = true)
    (htab : st.table = some rows)
    (hpw : rows.Pairwise fun a b => a.uuid ≠ b.uuid)
    (hr : ∀ k, (rng k).1 < 1) :
    (Local.label st 1 rng none).2.table =
      some (rows.map fun r =>
        if r.ground_truth = none then { r with ground_truth := r.prediction }
        else r) := by
  have hst : st = ⟨true, some rows, st.nextUuid⟩ := by rw [← hfe, ← htab]
  rw [hst, label_some]
  by_cases hdf : (rows.filter fun r => r.ground_truth = none) = []
  · rw [if_pos hdf]
    show some rows = _
    have hall : ∀ r ∈ rows, ¬ r.ground_truth = none := by
      intro r hrr hnone
      have hmem : r ∈ rows.filter fun t => t.ground_truth = none :=
        List.mem_filter.mpr ⟨hrr, by simpa using hnone⟩
      rw [hdf] at hmem
      cases hmem
    have hmap : (rows.map fun r =>
        if r.ground_truth = none then { r with ground_truth := r.prediction }
        else r) = rows := by
      rw [List.map_congr_left fun r hrr => if_neg (hall r hrr)]
      simp
    rw [hmap]
  · rw [if_neg hdf]
    show some (Local.runUpdates rows
      (rows.filter fun r => r.ground_truth = none) 1 rng) = _
    rw [runUpdates_filter_eq rows 1 rng hpw]
    congr 1
    refine List.map_congr_left fun r hrr => ?_
    by_cases hgt : r.ground_truth = none
    · obtain ⟨k, hk⟩ := labelStep_of_unlabeled rows 1 rng hpw r hrr hgt
      rw [hk, if_pos hgt]
      have hlab : get_fake_label r.prediction 1 (rng k) = r.prediction := by
        rw [get_fake_label, if_pos (hr k)]
      rw [hlab]
    · rw [labelStep_of_labeled rows 1 rng hpw r hrr hgt, if_neg hgt]

/-- Two rows with distinct uuids used by the label witnesses: one
unlabeled with a prediction, one already labeled. -/
def rowUnlabeledW : LocalRow :=
  { features := sampleFeatures, date := 3, prediction := some "Adelie",
    confidence := some 91, ground_truth := none, uuid := 0 }

/-- The already-labeled row of the label witnesses. -/
def rowLabeledW : LocalRow :=
  { features := sampleFeatures, date := 4, prediction := some "Gentoo",
    confidence := some 77, ground_truth := some "Chinstrap", uuid := 1 }

/-- A two-row labeled/unlabeled store for the label witnesses. -/
def labelStateW : LocalState :=
  { fileExists := true, table := some [rowUnlabeledW, rowLabeledW], nextUuid := 2 }

/-- The constant random stream used by the witnesses. -/
def rngZero : Nat → ℚ × Fin 3 := fun _ => (0, 0)

/-- Witness for C2 on a concrete two-row store. -/
theorem C2_label_full_accuracy_witness :
    (labelStateW.fileExists = true) ∧
    (labelStateW.table = some [rowUnlabeledW, rowLabeledW]) ∧
    ([rowUnlabeledW, rowLabeledW].Pairwise fun a b => a.uuid ≠ b.uuid) ∧
    (∀ k, (rngZero k).1 < 1) ∧
    ((Local.label labelStateW 1 rngZero none).2.table =
      some ([rowUnlabeledW, rowLabeledW].map fun r =>
        if r.ground_truth = none then { r with ground_truth := r.prediction }
        else r)) :=
  ⟨by decide, by decide, by decide, fun k => by norm_num [rngZero],
   C2_label_full_accuracy labelStateW [rowUnlabeledW, rowLabeledW] rngZero
     (by decide) (by decide) (by decide) (fun k => by norm_num [rngZero])⟩

/-- The simultaneous per-row update of a `label` run: length preserved,
labeled rows unchanged, unlabeled rows updated through `get_fake_label`. -/
theorem labelStep_map_spec (rows : List LocalRow) (q : ℚ)
    (rng : Nat → ℚ × Fin 3) (hpw : rows.Pairwise fun a b => a.uuid ≠ b.uuid) :
    (rows.map (labelStep rows q rng)).length = rows.length ∧
    ∀ (i : Nat) (hi : i < rows.length)
      (hi2 : i < (rows.map (labelStep rows q rng)).length),
      ((rows.get ⟨i, hi⟩).ground_truth ≠ none →
        (rows.map (labelStep rows q rng)).get ⟨i, hi2⟩ = rows.get ⟨i, hi⟩) ∧
      ((rows.get ⟨i, hi⟩).ground_truth = none → ∃ k,
        (rows.map (labelStep rows q rng)).get ⟨i, hi2⟩ =
          { rows.get ⟨i, hi⟩ with
            ground_truth :=
              get_fake_label (rows.get ⟨i, hi⟩).prediction q (rng k) }) := by
  refine ⟨List.length_map _ _, fun i hi hi2 => ?_⟩
  have hget : (rows.map (labelStep rows q rng)).get ⟨i, hi2⟩ =
      labelStep rows q rng (rows.get ⟨i, hi⟩) := by
    rw [List.get_eq_getElem, List.get_eq_getElem, List.getElem_map]
  constructor
  · intro hne
    rw [hget, labelStep_of_labeled rows q rng hpw _ (List.get_mem rows i hi) hne]
  · intro heq
    obtain ⟨k, hk⟩ :=
      labelStep_of_unlabeled rows q rng hpw _ (List.get_mem rows i hi) heq
    exact ⟨k, by rw [hget, hk]⟩

/-- C7: the local `label` operation is atomic.  For every injected failure
point the result is either the fully committed update (the returned count
is the number of discovered unlabeled rows, and the new table agrees with
the old one row by row: labeled rows unchanged, unlabeled rows updated
through `get_fake_label`) or the untouched original state with count 0;
any failure occurring before the commit yields the untouched state with
count 0; and the failure-free run on a non-empty unlabeled batch commits
and returns the batch size. -/
theorem C7_local_label_atomic (st : LocalState) (q : ℚ)
    (rng : Nat → ℚ × Fin 3) (fail : Option Nat) (rows : List LocalRow)
    (htab : st.table = some rows)
    (hpw : rows.Pairwise fun a b => a.uuid ≠ b.uuid) :
    (Local.label st q rng fail = (0, st) ∨
      ((Local.label st q rng fail).1 =
          (rows.filter fun r => r.ground_truth = none).length ∧
        (Local.label st q rng fail).2.fileExists = st.fileExists ∧
        (Local.label st q rng fail).2.nextUuid = st.nextUuid ∧
        ∃ rows', (Local.label st q rng fail).2.table = some rows' ∧
          rows'.length = rows.length ∧
          ∀ (i : Nat) (hi : i < rows.length) (hi2 : i < rows'.length),
            ((rows.get ⟨i, hi⟩).ground_truth ≠ none →
              rows'.get ⟨i, hi2⟩ = rows.get ⟨i, hi⟩) ∧
            ((rows.get ⟨i, hi⟩).ground_truth = none → ∃ k,
              rows'.get ⟨i, hi2⟩ = { rows.get ⟨i, hi⟩ with
                ground_truth :=
                  get_fake_label (rows.get ⟨i, hi⟩).prediction q (rng k) }))) ∧
    (∀ k, fail = some k →
      k ≤ (rows.filter fun r => r.ground_truth = none).length →
      Local.label st q rng fail = (0, st)) ∧
    (fail = none → st.fileExists = true →
      (rows.filter fun r => r.ground_truth = none) ≠ [] →
      (Local.label st q rng fail).1 =
        (rows.filter fun r => r.ground_truth = none).length) := by
  by_cases hfe : st.fileExists = true
  · have hst : st = ⟨true, some rows, st.nextUuid⟩ := by rw [← hfe, ← htab]
    rw [hst, label_some]
    by_cases hdf : (rows.filter fun r => r.ground_truth = none) = []
    · rw [if_pos hdf]
      exact ⟨Or.inl rfl, fun k _ _ => rfl, fun _ _ hne => absurd hdf hne⟩
    · rw [if_neg hdf]
      by_cases hfb : Local.failsBefore fail
          (rows.filter fun r => r.ground_truth = none).length = true
      · rw [if_pos hfb]
        refine ⟨Or.inl rfl, fun k _ _ => rfl, ?_⟩
        intro hnone
        subst hnone
        cases hfb
      · rw [if_neg hfb]
        refine ⟨Or.inr ⟨rfl, rfl, rfl, rows.map (labelStep rows q rng), ?_,
          (labelStep_map_spec rows q rng hpw).1,
          (labelStep_map_spec rows q rng hpw).2⟩, ?_, fun _ _ _ => rfl⟩
        · show some (Local.runUpdates rows
            (rows.filter fun r => r.ground_truth = none) q rng) = _
          rw [runUpdates_filter_eq rows q rng hpw]
        · intro k hfail hle
          subst hfail
          exact absurd (by simpa [Local.failsBefore] using hle) hfb
  · have hfe' : st.fileExists = false := by
      cases hb : st.fileExists
      · rfl
      · exact absurd hb hfe
    rw [label_no_file st q rng fail hfe']
    exact ⟨Or.inl rfl, fun k _ _ => rfl, fun _ h _ => absurd h hfe⟩

/-- Witness for C7 on a concrete two-row store with a failure injected at
the first update statement. -/
theorem C7_local_label_atomic_witness :
    (labelStateW.table = some [rowUnlabeledW, rowLabeledW]) ∧
    (([rowUnlabeledW, rowLabeledW] : List LocalRow).Pairwise
      fun a b => a.uuid ≠ b.uuid) ∧
    ((Local.label labelStateW (1/2) rngZero (some 0) = (0, labelStateW) ∨
      ((Local.label labelStateW (1/2) rngZero (some 0)).1 =
          (([rowUnlabeledW, rowLabeledW] : List LocalRow).filter
            fun r => r.ground_truth = none).length ∧
        (Local.label labelStateW (1/2) rngZero (some 0)).2.fileExists =
          labelStateW.fileExists ∧
        (Local.label labelStateW (1/2) rngZero (some 0)).2.nextUuid =
          labelStateW.nextUuid ∧
        ∃ rows', (Local.label labelStateW (1/2) rngZero (some 0)).2.table =
            some rows' ∧
          rows'.length = ([rowUnlabeledW, rowLabeledW] : List LocalRow).length ∧
          ∀ (i : Nat) (hi : i < ([rowUnlabeledW, rowLabeledW] :
              List LocalRow).length) (hi2 : i < rows'.length),
            ((([rowUnlabeledW, rowLabeledW] :
                List LocalRow).get ⟨i, hi⟩).ground_truth ≠ none →
              rows'.get ⟨i, hi2⟩ =
                ([rowUnlabeledW, rowLabeledW] : List LocalRow).get ⟨i, hi⟩) ∧
            ((([rowUnlabeledW, rowLabeledW] :
                List LocalRow).get ⟨i, hi⟩).ground_truth = none → ∃ k,
              rows'.get ⟨i, hi2⟩ = { ([rowUnlabeledW, rowLabeledW] :
                  List LocalRow).get ⟨i, hi⟩ with
                ground_truth := get_fake_label
                  (([rowUnlabeledW, rowLabeledW] :
                    List LocalRow).get ⟨i, hi⟩).prediction (1/2)
                  (rngZero k) }))) ∧
     (∀ k, (some 0 : Option Nat) = some k →
        k ≤ (([rowUnlabeledW, rowLabeledW] : List LocalRow).filter
          fun r => r.ground_truth = none).length →
        Local.label labelStateW (1/2) rngZero (some 0) = (0, labelStateW)) ∧
     ((some 0 : Option Nat) = none → labelStateW.fileExists = true →
        (([rowUnlabeledW, rowLabeledW] : List LocalRow).filter
          fun r => r.ground_truth = none) ≠ [] →
        (Local.label labelStateW (1/2) rngZero (some 0)).1 =
          (([rowUnlabeledW, rowLabeledW] : List LocalRow).filter
            fun r => r.ground_truth = none).length)) :=
  ⟨by decide, by decide,
   C7_local_label_atomic labelStateW (1/2) rngZero (some 0)
     [rowUnlabeledW, rowLabeledW] (by decide) (by decide)⟩

/-! ### Absent stores (C3) -/

/-- C3: `load` and `label` on a non-existent store return an empty/absent
result or the count 0 and never raise: the local operations short-circuit
when the database file is missing, and the object-storage operations
return an empty table / zero count when the capture prefix holds no
objects, whatever ground-truth objects exist. -/
theorem C3_absent_store (st : LocalState) (limit : Nat) (q : ℚ)
    (rng : Nat → ℚ × Fin 3) (fail : Option Nat) (batches : List GTBatch)
    (hfe : st.fileExists = false) :
    Local.load st limit = .ok none ∧
    Local.label st q rng fail = (0, st) ∧
    Sagemaker.load limit [] batches = [] ∧
    Sagemaker.label q rng [] batches = (0, none) := by
  refine ⟨?_, label_no_file st q rng fail hfe, rfl, rfl⟩
  rw [Local.load, if_pos hfe]

/-- Witness for C3 at the empty local state and a ground-truth-only object
store. -/
theorem C3_absent_store_witness :
    (emptyState.fileExists = false) ∧
    (Local.load emptyState 5 = .ok none ∧
     Local.label emptyState (1/2) rngZero none = (0, emptyState) ∧
     Sagemaker.load 5 [] [⟨"E1", [some "Adelie"]⟩] = [] ∧
     Sagemaker.label (1/2) rngZero [] [⟨"E1", [some "Adelie"]⟩] = (0, none)) :=
  ⟨by decide,
   C3_absent_store emptyState 5 (1/2) rngZero none [⟨"E1", [some "Adelie"]⟩]
     (by decide)⟩

/-! ### `invoke` (C6) -/

/-- Counterexample to C6 as stated: on the object-storage substrate a
transport failure is not converted into an absent result — `invoke`
raises it to the caller. -/
theorem C6_invoke_counterexample :
    Sagemaker.invoke
        (Local.TransportResult.err : Local.TransportResult (List OutputItem)) =
      Except.error PyErr.transport := rfl

/-- C6 amended: only the local substrate's `invoke` applies a bounded
timeout (5 seconds) to the network call and converts any transport failure
or timeout into an absent result instead of raising; the object-storage
substrate's `invoke` has no such handling and propagates transport
failures. -/
theorem C6_invoke_amended (http : Local.HttpRequest → Local.TransportResult String)
    (target payload : String)
    (hfail : http (Local.invokeRequest target payload) = Local.TransportResult.err) :
    (Local.invokeRequest target payload).timeoutSeconds = some 5 ∧
    Local.invoke http target payload = none ∧
    Sagemaker.invoke
        (Local.TransportResult.err : Local.TransportResult (List OutputItem)) =
      Except.error PyErr.transport := by
  refine ⟨rfl, ?_, rfl⟩
  rw [Local.invoke, hfail]

/-- Witness for the amended C6 at a failing transport oracle. -/
theorem C6_invoke_amended_witness :
    ((fun _ : Local.HttpRequest =>
        (Local.TransportResult.err : Local.TransportResult String))
      (Local.invokeRequest "http://127.0.0.1:8080/invocations" "[1]") =
        Local.TransportResult.err) ∧
    ((Local.invokeRequest "http://127.0.0.1:8080/invocations"
        "[1]").timeoutSeconds = some 5 ∧
     Local.invoke
        (fun _ => (Local.TransportResult.err : Local.TransportResult String))
        "http://127.0.0.1:8080/invocations" "[1]" = none ∧
     Sagemaker.invoke
        (Local.TransportResult.err : Local.TransportResult (List OutputItem)) =
      Except.error PyErr.transport) :=
  ⟨rfl, C6_invoke_amended
    (fun _ => (Local.TransportResult.err : Local.TransportResult String))
    "http://127.0.0.1:8080/invocations" "[1]" rfl⟩

/-! ### The three-row scenario (C8) -/

/-- The store of the C8 scenario: two rows saved with predictions
"Adelie" and "Gentoo", then one unscored row saved with no outputs. -/
def stateC8 : LocalState :=
  (Local.save (Local.save emptyState 1 [sampleFeatures, sampleFeatures]
      (some [⟨some "Adelie", some 90⟩, ⟨some "Gentoo", some 80⟩]) false).1
    2 [sampleFeatures] none false).1

/-- Counterexample to C8 as stated: in the three-row scenario,
`label(1.0)` returns 3 — the number of rows found unlabeled, including the
unscored one — not 2. -/
theorem C8_label_count_counterexample :
    (Local.label stateC8 1 rngZero none).1 = 3 ∧
    (Local.label stateC8 1 rngZero none).1 ≠ 2 := by decide

/-- C8 amended: in the three-row scenario `load(10)` returns 3 rows of
which exactly one has a null prediction (`load` does not select a
confidence column), and `label(1.0)` returns 3 — the count of rows
discovered unlabeled, including the unscored row whose synthesized label
is null.  In general, `label` returns the number of rows discovered
unlabeled and returns 0 when there is nothing to label. -/
theorem C8_scenario_amended :
    (∃ out : List LoadedRow, Local.load stateC8 10 = .ok (some out) ∧
      out.length = 3 ∧
      (out.filter fun r => r.prediction = none).length = 1) ∧
    ((Local.label stateC8 1 rngZero none).1 = 3) ∧
    (∀ (st : LocalState) (q : ℚ) (rng : Nat → ℚ × Fin 3) (fail : Option Nat)
        (rows : List LocalRow), st.table = some rows →
      (rows.filter fun r => r.ground_truth = none) = [] →
      Local.label st q rng fail = (0, st)) ∧
    (∀ (st : LocalState) (q : ℚ) (rng : Nat → ℚ × Fin 3)
        (rows : List LocalRow), st.fileExists = true → st.table = some rows →
      (rows.filter fun r => r.ground_truth = none) ≠ [] →
      (Local.label st q rng none).1 =
        (rows.filter fun r => r.ground_truth = none).length) := by
  refine ⟨⟨[⟨sampleFeatures, none, none⟩, ⟨sampleFeatures, some "Adelie", none⟩,
    ⟨sampleFeatures, some "Gentoo", none⟩], rfl, by decide, by decide⟩,
    by decide, ?_, ?_⟩
  · intro st q rng fail rows htab hdf
    by_cases hfe : st.fileExists = true
    · have hst : st = ⟨true, some rows, st.nextUuid⟩ := by rw [← hfe, ← htab]
      rw [hst, label_some, if_pos hdf]
    · have hfe' : st.fileExists = false := by
        cases hb : st.fileExists
        · rfl
        · exact absurd hb hfe
      exact label_no_file st q rng fail hfe'
  · intro st q rng rows hfe htab hdf
    have hst : st = ⟨true, some rows, st.nextUuid⟩ := by rw [← hfe, ← htab]
    rw [hst, label_some, if_neg hdf,
      if_neg (by simp [Local.failsBefore] :
        ¬ Local.failsBefore none
          (rows.filter fun r => r.ground_truth = none).length = true)]

/-- A one-row fully labeled store for the C8 witness. -/
def allLabeledStateW : LocalState :=
  { fileExists := true, table := some [rowLabeledW], nextUuid := 2 }

/-- Witness for the amended C8: the zero-case on a fully labeled store and
the count on a store with one unlabeled row. -/
theorem C8_scenario_amended_witness :
    (allLabeledStateW.table = some [rowLabeledW]) ∧
    ((([rowLabeledW] : List LocalRow).filter
      fun r => r.ground_truth = none) = []) ∧
    (Local.label allLabeledStateW (1/3) rngZero (some 5) =
      (0, allLabeledStateW)) ∧
    (labelStateW.fileExists = true) ∧
    (labelStateW.table = some [rowUnlabeledW, rowLabeledW]) ∧
    ((([rowUnlabeledW, rowLabeledW] : List LocalRow).filter
      fun r => r.ground_truth = none) ≠ []) ∧
    ((Local.label labelStateW (1/3) rngZero none).1 =
      (([rowUnlabeledW, rowLabeledW] : List LocalRow).filter
        fun r => r.ground_truth = none).length) :=
  ⟨by decide, by decide,
   C8_scenario_amended.2.2.1 allLabeledStateW (1/3) rngZero (some 5)
     [rowLabeledW] (by decide) (by decide),
   by decide, by decide, by decide,
   C8_scenario_amended.2.2.2 labelStateW (1/3) rngZero
     [rowUnlabeledW, rowLabeledW] (by decide) (by decide) (by decide)⟩

end MLSchool
